import Mathlib

/-!
Shallow embedding of the yeelight command-line client (src/main.rs) and
verification of its specification claims.

Conventions:
* Rust `u8`/`u16` values are modelled as `Nat`; where overflow matters the
  arithmetic is taken modulo `2 ^ 16` explicitly.
* Fallible Rust functions returning `Result` are modelled with `Except`.
* I/O (TCP connect, writes, flushes, reads) is modelled with explicit
  oracles describing the outcome of each operation, so that the pure
  control flow of the source can be stated and proved.
-/

/-- The error kinds of `std::num::ParseIntError` relevant to
`u8::from_str` / `u16::from_str`: empty input, an invalid digit, or
positive overflow of the target type. -/
inductive IntErrorKind
  | empty
  | invalidDigit
  | posOverflow
deriving DecidableEq, Repr

/-- Numeric value of an ASCII digit character (Rust computes `b - b'0'`). -/
def digitVal (c : Char) : Nat := c.toNat - 48

/-- One accumulation step of decimal parsing. -/
def parseStep (a : Nat) (c : Char) : Nat := a * 10 + digitVal c

/-- Embedding of Rust `str::parse::<uN>()` (i.e. `from_str_radix` with
radix 10 for an unsigned type with maximum value `maxVal`):
* empty input fails with `Empty`;
* a single leading `'+'` is stripped; a bare `"+"` fails with
  `InvalidDigit`; any non-digit character fails with `InvalidDigit`
  (`'-'` is not accepted for unsigned types);
* if the digits denote a value above `maxVal` the parse fails with
  `PosOverflow` (checked multiply/add in Rust; equivalent to comparing
  the exact value against the maximum). -/
def parseUnsigned (maxVal : Nat) (cs : List Char) : Except IntErrorKind Nat :=
  match cs with
  | [] => .error .empty
  | c0 :: rest =>
    let ds := if c0 = '+' then rest else c0 :: rest
    if ds.isEmpty then .error .invalidDigit
    else if ds.all (·.isDigit) then
      let v := ds.foldl parseStep 0
      if v > maxVal then .error .posOverflow else .ok v
    else .error .invalidDigit

/-- Embedding of Rust `str::split(sep)` over a character list:
splits on every occurrence of `sep`; the empty input yields `[[]]`,
exactly as `"".split(sep)` yields `[""]`. -/
def splitChar (sep : Char) : List Char → List (List Char)
  | [] => [[]]
  | c :: cs =>
    if c = sep then [] :: splitChar sep cs
    else
      match splitChar sep cs with
      | [] => [[c]]
      | g :: gs => (c :: g) :: gs

/-- The main-light mode (`enum Mode`), with the device's integer
discriminants `Normal = 1`, `Moonlight = 5`. -/
inductive Mode
  | normal
  | moonlight
deriving DecidableEq, Repr

/-- `mode as u8`: the integer discriminant of a `Mode`. -/
def Mode.code : Mode → Nat
  | .normal => 1
  | .moonlight => 5

/-- `enum MainParseError` of the source. -/
inductive MainParseError
  | invalidFormat
  | invalidNumber (k : IntErrorKind)
  | invalidValue
deriving DecidableEq, Repr

/-- Embedding of `parse_main` (src/main.rs lines 22-49). -/
def parse_main (input : String) : Except MainParseError (Mode × Nat) :=
  if input = "off" then .ok (.normal, 0)
  else
    match parseUnsigned 255 input.data with
    | .ok v =>
      if v ≤ 100 then .ok (.moonlight, v)
      else if v ≤ 200 then .ok (.normal, v - 100)
      else .error .invalidFormat
    | .error _ =>
      match splitChar ':' input.data with
      | [p0, p1] =>
        match parseUnsigned 255 p1 with
        | .error e => .error (.invalidNumber e)
        | .ok v =>
          if v > 100 then .error .invalidValue
          else if p0 = "moonlight".data then .ok (.moonlight, v)
          else if p0 = "normal".data then .ok (.normal, v)
          else .error .invalidValue
      | _ => .error .invalidFormat

/-- `enum HsvParseError` of the source. -/
inductive HsvParseError
  | invalidFormat
  | invalidNumber (k : IntErrorKind)
  | invalidHue
  | invalidSaturation
  | invalidValue
deriving DecidableEq, Repr

/-- Embedding of `parse_hsv` (src/main.rs lines 65-90): `h` is parsed as
`u16`, `s` and `v` as `u8`; all three fields are parsed before any range
check, and the range checks run in the order hue, saturation, value. -/
def parse_hsv (input : String) : Except HsvParseError (Nat × Nat × Nat) :=
  if input = "off" then .ok (0, 0, 0)
  else
    match splitChar ',' input.data with
    | [ph, ps, pv] =>
      match parseUnsigned 65535 ph with
      | .error e => .error (.invalidNumber e)
      | .ok h =>
        match parseUnsigned 255 ps with
        | .error e => .error (.invalidNumber e)
        | .ok s =>
          match parseUnsigned 255 pv with
          | .error e => .error (.invalidNumber e)
          | .ok v =>
            if h > 359 then .error .invalidHue
            else if s > 100 then .error .invalidSaturation
            else if v > 100 then .error .invalidValue
            else .ok (h, s, v)
    | _ => .error .invalidFormat

/-! ### Decimal numerals

To state claims of the form "parsing the token for the integer X ..." we
relate `parseUnsigned` to Lean's decimal numeral printer `Nat.repr`. -/

/-- The list of decimal digit characters of `n`, most significant first. -/
def repChars (n : Nat) : List Char :=
  if _h : n < 10 then [Nat.digitChar n]
  else repChars (n / 10) ++ [Nat.digitChar (n % 10)]
termination_by n
decreasing_by exact Nat.div_lt_self (by omega) (by omega)

theorem repChars_lt (n : Nat) (h : n < 10) : repChars n = [Nat.digitChar n] := by
  rw [repChars]; simp [h]

theorem repChars_ge (n : Nat) (h : ¬ n < 10) :
    repChars n = repChars (n / 10) ++ [Nat.digitChar (n % 10)] := by
  rw [repChars]; simp [h]

theorem digitChar_isDigit {m : Nat} (h : m < 10) : (Nat.digitChar m).isDigit := by
  interval_cases m <;> decide

theorem digitVal_digitChar {m : Nat} (h : m < 10) : digitVal (Nat.digitChar m) = m := by
  interval_cases m <;> decide

theorem repChars_all_digits (n : Nat) : ∀ c ∈ repChars n, c.isDigit := by
  induction n using Nat.strong_induction_on with
  | _ n ih =>
    by_cases h : n < 10
    · rw [repChars_lt n h]
      intro c hc
      simp at hc
      subst hc
      exact digitChar_isDigit h
    · rw [repChars_ge n h]
      intro c hc
      rcases List.mem_append.mp hc with h1 | h2
      · exact ih (n / 10) (Nat.div_lt_self (by omega) (by omega)) c h1
      · simp at h2
        subst h2
        exact digitChar_isDigit (Nat.mod_lt _ (by omega))

theorem repChars_ne_nil (n : Nat) : repChars n ≠ [] := by
  by_cases h : n < 10
  · rw [repChars_lt n h]; simp
  · rw [repChars_ge n h]; simp

theorem foldl_repChars (n : Nat) :
    ∀ a : Nat, (repChars n).foldl parseStep a = a * 10 ^ (repChars n).length + n := by
  induction n using Nat.strong_induction_on with
  | _ n ih =>
    intro a
    by_cases h : n < 10
    · rw [repChars_lt n h]
      simp [parseStep, digitVal_digitChar h]
    · rw [repChars_ge n h]
      rw [List.foldl_append, List.length_append]
      rw [ih (n / 10) (Nat.div_lt_self (by omega) (by omega)) a]
      simp only [List.foldl_cons, List.foldl_nil, List.length_cons, List.length_nil]
      rw [parseStep, digitVal_digitChar (Nat.mod_lt _ (by omega))]
      have hn : n = 10 * (n / 10) + n % 10 := (Nat.div_add_mod n 10).symm
      ring_nf
      omega

/-- With enough fuel, `Nat.toDigitsCore` produces exactly `repChars`. -/
theorem toDigitsCore_eq_repChars :
    ∀ (fuel n : Nat) (ds : List Char), 0 < fuel → n < 10 ^ fuel →
      Nat.toDigitsCore 10 fuel n ds = repChars n ++ ds := by
  intro fuel
  induction fuel with
  | zero => intro n ds h; omega
  | succ f ihf =>
    intro n ds _ hlt
    rw [Nat.toDigitsCore]
    by_cases h0 : n / 10 = 0
    · have h10 : n < 10 := by omega
      simp [h0, repChars_lt n h10, Nat.mod_eq_of_lt h10]
    · have h10 : ¬ n < 10 := by omega
      simp only [h0, if_false]
      have hf : 0 < f := by
        by_contra hf0
        have : f = 0 := by omega
        subst this
        simp at hlt
        omega
      have hdiv : n / 10 < 10 ^ f := by
        have : n < 10 ^ f * 10 := by
          rw [← pow_succ]
          exact hlt
        omega
      rw [ihf (n / 10) (Nat.digitChar (n % 10) :: ds) hf hdiv]
      rw [repChars_ge n h10]
      simp

theorem repr_eq_repChars (n : Nat) : (Nat.repr n).data = repChars n := by
  show (Nat.toDigits 10 n).asString.data = repChars n
  rw [Nat.toDigits]
  rw [toDigitsCore_eq_repChars (n + 1) n [] (by omega)
    (lt_of_lt_of_le (Nat.lt_pow_self (by omega) n)
      (Nat.pow_le_pow_right (by omega) (by omega)))]
  simp [List.asString]

/-- `parseUnsigned` is a left inverse of decimal printing: parsing the
numeral of `n` yields `n` when it fits, `PosOverflow` otherwise. -/
theorem parseUnsigned_repr (maxVal n : Nat) :
    parseUnsigned maxVal (Nat.repr n).data =
      if n ≤ maxVal then .ok n else .error .posOverflow := by
  rw [repr_eq_repChars]
  obtain ⟨c0, rest, hco⟩ := List.exists_cons_of_ne_nil (repChars_ne_nil n)
  rw [hco, parseUnsigned]
  have hc0 : c0.isDigit := by
    have := repChars_all_digits n c0
    rw [hco] at this
    exact this (by simp)
  have hplus : ¬ c0 = '+' := by
    intro h
    subst h
    exact absurd hc0 (by decide)
  simp only [hplus, if_false]
  have hall : (c0 :: rest).all (·.isDigit) = true := by
    rw [← hco]
    rw [List.all_eq_true]
    intro c hc
    exact repChars_all_digits n c hc
  simp only [List.isEmpty_cons, hall, if_true, if_false, Bool.false_eq_true]
  rw [← hco, foldl_repChars n 0]
  simp only [Nat.zero_mul, Nat.zero_add]
  by_cases h : n ≤ maxVal
  · simp [h, Nat.not_lt.mpr h]
  · simp [h, Nat.lt_of_not_le h]

/-! ### Properties of `splitChar` -/

theorem string_data_append (a b : String) : (a ++ b).data = a.data ++ b.data := by
  cases a
  cases b
  rfl

theorem splitChar_not_mem (sep : Char) (xs : List Char) (h : sep ∉ xs) :
    splitChar sep xs = [xs] := by
  induction xs with
  | nil => rfl
  | cons c cs ih =>
    have hc : ¬ c = sep := fun he => h (by simp [he])
    have hcs : sep ∉ cs := fun hm => h (by simp [hm])
    simp [splitChar, hc, ih hcs]

theorem splitChar_append_sep (sep : Char) (xs ys : List Char) (h : sep ∉ xs) :
    splitChar sep (xs ++ sep :: ys) = xs :: splitChar sep ys := by
  induction xs with
  | nil => simp [splitChar]
  | cons c cs ih =>
    have hc : ¬ c = sep := fun he => h (by simp [he])
    have hcs : sep ∉ cs := fun hm => h (by simp [hm])
    show splitChar sep (c :: (cs ++ sep :: ys)) = (c :: cs) :: splitChar sep ys
    rw [splitChar]
    simp only [hc, if_false, ih hcs]

theorem colon_not_mem_repr (n : Nat) : ':' ∉ (Nat.repr n).data := by
  rw [repr_eq_repChars]
  intro hm
  have := repChars_all_digits n ':' hm
  exact absurd this (by decide)

theorem repr_ne_off (n : Nat) : Nat.repr n ≠ "off" := by
  intro h
  have hd := congrArg String.data h
  rw [repr_eq_repChars] at hd
  have : 'o' ∈ repChars n := by
    rw [hd]
    decide
  exact absurd (repChars_all_digits n 'o' this) (by decide)

/-! ### Claim C5: bare-integer and "off" main-light tokens -/

/-- C5: for every integer X in [0,100] the main-light token `X` parses to
`(Moonlight, X)`; for X in [101,200] it parses to `(Normal, X-100)`; the
literal `"off"` parses to `(Normal, 0)`. -/
theorem claim_C5 :
    (∀ X : Nat, X ≤ 100 → parse_main (Nat.repr X) = .ok (Mode.moonlight, X))
    ∧ (∀ X : Nat, 101 ≤ X → X ≤ 200 → parse_main (Nat.repr X) = .ok (Mode.normal, X - 100))
    ∧ parse_main "off" = .ok (Mode.normal, 0) := by
  refine ⟨?_, ?_, rfl⟩
  · intro X hX
    rw [parse_main, if_neg (repr_ne_off X), parseUnsigned_repr]
    simp only [show X ≤ 255 by omega, if_true]
    simp [hX]
  · intro X hX1 hX2
    rw [parse_main, if_neg (repr_ne_off X), parseUnsigned_repr]
    simp only [show X ≤ 255 by omega, if_true]
    simp only [show ¬ X ≤ 100 by omega, if_false, show X ≤ 200 by omega, if_true]

/-- Witness for C5 at X = 50, X = 150. -/
theorem claim_C5_witness :
    parse_main (Nat.repr 50) = .ok (Mode.moonlight, 50)
    ∧ parse_main (Nat.repr 150) = .ok (Mode.normal, 50)
    ∧ parse_main "off" = .ok (Mode.normal, 0) :=
  ⟨claim_C5.1 50 (by decide), claim_C5.2.1 150 (by decide) (by decide), claim_C5.2.2⟩

/-! ### Claim C6: "moonlight:V" main-light tokens -/

/-- Decidable equality for `Except`, needed to settle parser results by
`decide`. -/
instance instDecEqExcept {ε α : Type} [DecidableEq ε] [DecidableEq α] :
    DecidableEq (Except ε α) := fun a b =>
  match a, b with
  | .ok x, .ok y =>
    if h : x = y then .isTrue (by rw [h]) else .isFalse (fun hc => h (by injection hc))
  | .error e, .error f =>
    if h : e = f then .isTrue (by rw [h]) else .isFalse (fun hc => h (by injection hc))
  | .ok _, .error _ => .isFalse (fun hc => Except.noConfusion hc)
  | .error _, .ok _ => .isFalse (fun hc => Except.noConfusion hc)

theorem moonlight_ne_off (s : String) : ("moonlight:" ++ s) ≠ "off" := by
  intro h
  have hd := congrArg String.data h
  rw [string_data_append] at hd
  rw [show "moonlight:".data = 'm' :: "oonlight:".data from rfl, List.cons_append] at hd
  rw [show "off".data = 'o' :: "ff".data from rfl] at hd
  injection hd with hh _
  exact absurd hh (by decide)

theorem parseUnsigned_head_nondigit (maxVal : Nat) (c : Char) (cs : List Char)
    (h1 : c.isDigit = false) (h2 : ¬ c = '+') :
    parseUnsigned maxVal (c :: cs) = .error .invalidDigit := by
  simp [parseUnsigned, h2, h1]

theorem moonlight_colon_split (s : String) (h : ':' ∉ s.data) :
    splitChar ':' ("moonlight:" ++ s).data = ["moonlight".data, s.data] := by
  rw [string_data_append]
  rw [show ("moonlight:").data = "moonlight".data ++ ':' :: [] from rfl]
  rw [List.append_assoc, List.singleton_append]
  rw [splitChar_append_sep ':' _ _ (by decide), splitChar_not_mem ':' _ h]

theorem parseUnsigned_moonlight_prefix (s : String) :
    parseUnsigned 255 ("moonlight:" ++ s).data = .error .invalidDigit := by
  rw [string_data_append]
  rw [show ("moonlight:").data = 'm' :: "oonlight:".data from rfl, List.cons_append]
  exact parseUnsigned_head_nondigit 255 'm' _ (by decide) (by decide)

theorem parse_main_moonlight (V : Nat) :
    parse_main ("moonlight:" ++ Nat.repr V) =
      if V ≤ 100 then .ok (Mode.moonlight, V)
      else if V ≤ 255 then .error .invalidValue
      else .error (.invalidNumber .posOverflow) := by
  have h1 := parseUnsigned_moonlight_prefix (Nat.repr V)
  have h2 := moonlight_colon_split (Nat.repr V) (colon_not_mem_repr V)
  rw [parse_main, if_neg (moonlight_ne_off _)]
  simp only [h1, h2, parseUnsigned_repr]
  by_cases h255 : V ≤ 255
  · simp only [h255, if_true]
    by_cases h100 : V ≤ 100
    · simp [h100, Nat.not_lt.mpr h100]
    · simp [h100, Nat.lt_of_not_le h100]
  · simp [h255, show ¬ V ≤ 100 by omega]

/-- C6 counterexample: the claim says every V > 100 yields `InvalidValue`,
but `"moonlight:256"` overflows the `u8` value parse and yields
`InvalidNumber(PosOverflow)` instead. -/
theorem claim_C6_counterexample :
    (100 < 256)
    ∧ parse_main "moonlight:256" = .error (.invalidNumber .posOverflow)
    ∧ parse_main "moonlight:256" ≠ .error .invalidValue := by
  refine ⟨by decide, by decide, by decide⟩

/-- C6 amended: `"moonlight:V"` parses to `(Moonlight, V)` for V ≤ 100,
fails with `InvalidValue` for 100 < V ≤ 255, and fails with
`InvalidNumber(PosOverflow)` for V > 255 (the value is parsed as a `u8`
before the 0..=100 range check). -/
theorem claim_C6_amended :
    (∀ V : Nat, V ≤ 100 → parse_main ("moonlight:" ++ Nat.repr V) = .ok (Mode.moonlight, V))
    ∧ (∀ V : Nat, 101 ≤ V → V ≤ 255 →
        parse_main ("moonlight:" ++ Nat.repr V) = .error .invalidValue)
    ∧ (∀ V : Nat, 256 ≤ V →
        parse_main ("moonlight:" ++ Nat.repr V) = .error (.invalidNumber .posOverflow)) := by
  refine ⟨?_, ?_, ?_⟩
  · intro V h
    rw [parse_main_moonlight]
    simp [h]
  · intro V h1 h2
    rw [parse_main_moonlight]
    simp only [show ¬ V ≤ 100 by omega, if_false, h2, if_true]
  · intro V h
    rw [parse_main_moonlight]
    simp only [show ¬ V ≤ 100 by omega, show ¬ V ≤ 255 by omega, if_false]

/-- Witness for the amended C6 at V = 50, 150, 300. -/
theorem claim_C6_amended_witness :
    parse_main ("moonlight:" ++ Nat.repr 50) = .ok (Mode.moonlight, 50)
    ∧ parse_main ("moonlight:" ++ Nat.repr 150) = .error .invalidValue
    ∧ parse_main ("moonlight:" ++ Nat.repr 300) = .error (.invalidNumber .posOverflow) :=
  ⟨claim_C6_amended.1 50 (by decide),
   claim_C6_amended.2.1 150 (by decide) (by decide),
   claim_C6_amended.2.2 300 (by decide)⟩

/-! ### Claim C7: ambient-light (HSV) parser -/

/-- C7: the ambient parser maps `"off"` to `(0,0,0)`; any other input
fails with `InvalidFormat` unless splitting on `','` gives exactly 3
fields; a field that does not parse for its numeric type (u16 for hue,
u8 for saturation and value, parsed in that order) gives
`InvalidNumber`; otherwise hue > 359 gives `InvalidHue`,
saturation > 100 gives `InvalidSaturation`, value > 100 gives
`InvalidValue`, and in-range fields give the triple; `"200,50,75"`
yields `(200,50,75)`. -/
theorem claim_C7 :
    parse_hsv "off" = .ok (0, 0, 0)
    ∧ (∀ s : String, s ≠ "off" → (splitChar ',' s.data).length ≠ 3 →
        parse_hsv s = .error .invalidFormat)
    ∧ (∀ (s : String) (p0 p1 p2 : List Char), s ≠ "off" →
        splitChar ',' s.data = [p0, p1, p2] →
        (∀ e, parseUnsigned 65535 p0 = .error e →
          parse_hsv s = .error (.invalidNumber e))
        ∧ (∀ h e, parseUnsigned 65535 p0 = .ok h → parseUnsigned 255 p1 = .error e →
          parse_hsv s = .error (.invalidNumber e))
        ∧ (∀ h sv e, parseUnsigned 65535 p0 = .ok h → parseUnsigned 255 p1 = .ok sv →
            parseUnsigned 255 p2 = .error e →
          parse_hsv s = .error (.invalidNumber e))
        ∧ (∀ h sv v, parseUnsigned 65535 p0 = .ok h → parseUnsigned 255 p1 = .ok sv →
            parseUnsigned 255 p2 = .ok v →
            (359 < h → parse_hsv s = .error .invalidHue)
            ∧ (h ≤ 359 → 100 < sv → parse_hsv s = .error .invalidSaturation)
            ∧ (h ≤ 359 → sv ≤ 100 → 100 < v → parse_hsv s = .error .invalidValue)
            ∧ (h ≤ 359 → sv ≤ 100 → v ≤ 100 → parse_hsv s = .ok (h, sv, v))))
    ∧ parse_hsv "200,50,75" = .ok (200, 50, 75) := by
  refine ⟨rfl, ?_, ?_, by decide⟩
  · intro s hs hlen
    rw [parse_hsv, if_neg hs]
    rcases hsplit : splitChar ',' s.data with _ | ⟨a, _ | ⟨b, _ | ⟨c, _ | d⟩⟩⟩ <;>
      first
        | rfl
        | (exact absurd (by rw [hsplit]; rfl) hlen)
  · intro s p0 p1 p2 hs hsplit
    refine ⟨?_, ?_, ?_, ?_⟩
    · intro e he
      rw [parse_hsv, if_neg hs]
      simp only [hsplit, he]
    · intro h e hh he
      rw [parse_hsv, if_neg hs]
      simp only [hsplit, hh, he]
    · intro h sv e hh hsv he
      rw [parse_hsv, if_neg hs]
      simp only [hsplit, hh, hsv, he]
    · intro h sv v hh hsv hv
      refine ⟨?_, ?_, ?_, ?_⟩
      · intro hhue
        rw [parse_hsv, if_neg hs]
        simp only [hsplit, hh, hsv, hv]
        simp [hhue]
      · intro hhue hsat
        rw [parse_hsv, if_neg hs]
        simp only [hsplit, hh, hsv, hv]
        simp [Nat.not_lt.mpr hhue, hsat]
      · intro hhue hsat hval
        rw [parse_hsv, if_neg hs]
        simp only [hsplit, hh, hsv, hv]
        simp [Nat.not_lt.mpr hhue, Nat.not_lt.mpr hsat, hval]
      · intro hhue hsat hval
        rw [parse_hsv, if_neg hs]
        simp only [hsplit, hh, hsv, hv]
        simp [Nat.not_lt.mpr hhue, Nat.not_lt.mpr hsat, Nat.not_lt.mpr hval]

/-- Witness for C7 on the specification's own examples. -/
theorem claim_C7_witness :
    parse_hsv "1,2" = .error .invalidFormat
    ∧ parse_hsv "360,0,0" = .error .invalidHue
    ∧ parse_hsv "0,101,0" = .error .invalidSaturation
    ∧ parse_hsv "0,0,101" = .error .invalidValue
    ∧ parse_hsv "0,0,abc" = .error (.invalidNumber .invalidDigit) := by
  refine ⟨?_, ?_, ?_, ?_, ?_⟩
  · exact claim_C7.2.1 "1,2" (by decide) (by decide)
  · exact (claim_C7.2.2.1 "360,0,0" "360".data "0".data "0".data (by decide) (by decide)).2.2.2
      360 0 0 (by decide) (by decide) (by decide) |>.1 (by decide)
  · exact (claim_C7.2.2.1 "0,101,0" "0".data "101".data "0".data (by decide) (by decide)).2.2.2
      0 101 0 (by decide) (by decide) (by decide) |>.2.1 (by decide) (by decide)
  · exact (claim_C7.2.2.1 "0,0,101" "0".data "0".data "101".data (by decide) (by decide)).2.2.2
      0 0 101 (by decide) (by decide) (by decide) |>.2.2.1 (by decide) (by decide) (by decide)
  · exact (claim_C7.2.2.1 "0,0,abc" "0".data "0".data "abc".data (by decide) (by decide)).2.2.1
      0 0 .invalidDigit (by decide) (by decide) (by decide)

/-! ### Wire protocol: request serialization (serde_json)

`Message` derives `serde::Serialize`; `Param` is `#[serde(untagged)]`, so a
parameter serializes as a bare JSON number or string.  serde_json writes a
compact single-line object with the fields in declaration order and escapes
control characters inside strings, so the serialized text never contains a
raw line break. -/

/-- `enum Param` of the source (u8 / u16 / String); values are `Nat`s. -/
inductive Param
  | uint8 (n : Nat)
  | uint16 (n : Nat)
  | str (s : String)
deriving DecidableEq, Repr

/-- `struct Message { id: u16, method: String, params: Vec<Param> }`. -/
structure Message where
  id : Nat
  method : String
  params : List Param
deriving DecidableEq, Repr

/-- serde_json escaping of one character inside a JSON string: the
two-character escapes for quote, backslash, BS, TAB, LF, FF, CR, the
generic `\u00XX` escape (lowercase hex) for the other control characters,
and every other character unchanged. -/
def escapeJsonChar (c : Char) : List Char :=
  if c = '"' then ['\\', '"']
  else if c = '\\' then ['\\', '\\']
  else if c = '\x08' then ['\\', 'b']
  else if c = '\x09' then ['\\', 't']
  else if c = '\x0a' then ['\\', 'n']
  else if c = '\x0c' then ['\\', 'f']
  else if c = '\x0d' then ['\\', 'r']
  else if c.toNat < 32 then
    ['\\', 'u', '0', '0', Nat.digitChar (c.toNat / 16), Nat.digitChar (c.toNat % 16)]
  else [c]

/-- serde_json serialization of a JSON string: quoted and escaped. -/
def jsonString (s : String) : String :=
  String.mk ('"' :: ((s.data.map escapeJsonChar).flatten ++ ['"']))

/-- serde serialization of a `Param`: `#[serde(untagged)]` writes the bare
value with no discriminant. -/
def serializeParam : Param → String
  | .uint8 n => Nat.repr n
  | .uint16 n => Nat.repr n
  | .str s => jsonString s

/-- Comma-joined array elements, as serde_json writes them (no spaces). -/
def joinComma : List String → String
  | [] => ""
  | [s] => s
  | s :: rest => s ++ "," ++ joinComma rest

/-- serde_json serialization of a `Message`: a compact one-line JSON
object with the fields in declaration order. -/
def serializeMessage (m : Message) : String :=
  "\x7b\"id\":" ++ Nat.repr m.id ++ ",\"method\":" ++ jsonString m.method
    ++ ",\"params\":[" ++ joinComma (m.params.map serializeParam) ++ "]\x7d"

/-! ### The command session (`Client::send_command`) -/

/-- The `std::io::ErrorKind`s the source distinguishes: `WouldBlock` (a
read timeout on a Unix socket surfaces as `WouldBlock`) versus anything
else. -/
inductive ErrorKind
  | wouldBlock
  | timedOut
  | other
deriving DecidableEq, Repr

/-- A `std::io::Error`, abstracted to its kind. -/
structure IOError where
  kind : ErrorKind
deriving DecidableEq, Repr

/-- A `serde_json` serialization error (never actually produced for
`Message`, but `serde_json::to_string` is fallible in the source, so the
model keeps the error path). -/
structure SerError where
  code : Nat
deriving DecidableEq, Repr

/-- The error type of `send_command` (`Box<dyn Error>`), by provenance. -/
inductive SendError
  | io (e : IOError)
  | ser (e : SerError)
deriving DecidableEq, Repr

/-- `struct Client`: the buffered stream plus the `next_id: u16` counter.
The read/write timeouts (in milliseconds) that `Client::connect` installed
on the socket are carried as fields so claims can refer to them. -/
structure Client where
  stream : Nat
  next_id : Nat
  readTimeout : Nat
  writeTimeout : Nat
deriving DecidableEq, Repr

/-- Wire events observable on the stream: a write of bytes, or a read
attempt. -/
inductive Ev
  | wr (bytes : String)
  | rd
deriving DecidableEq, Repr

def countWr : List Ev → Nat
  | [] => 0
  | .wr _ :: tr => countWr tr + 1
  | .rd :: tr => countWr tr

def countRd : List Ev → Nat
  | [] => 0
  | .wr _ :: tr => countRd tr
  | .rd :: tr => countRd tr + 1

/-- `BufRead::read_until(b'\n')`: consumes bytes up to and including the
first LF, or everything if the stream ends without one. -/
def readUntilLF : List Char → List Char
  | [] => []
  | c :: cs => if c = '\n' then [c] else c :: readUntilLF cs

/-- `str::trim_end()`: remove trailing whitespace. -/
def trimEnd (l : List Char) : List Char :=
  (l.reverse.dropWhile Char.isWhitespace).reverse

/-- Outcomes of the individual I/O operations inside one `send_command`
call: the serialization attempt, first write/flush, first read, resend
write/flush, second read.  A read outcome is either the available stream
content (success) or an error together with the bytes it had already
appended to the buffer before failing. -/
structure SendOracle where
  ser : Option SerError
  w1 : Option IOError
  f1 : Option IOError
  r1 : Except (IOError × String) String
  w2 : Option IOError
  f2 : Option IOError
  r2 : Except (IOError × String) String
deriving DecidableEq, Repr

/-- Result of one `send_command` call: the returned value, the client
state afterwards, the request `Message` that was built, and the wire
events. -/
structure SendOut where
  res : Except SendError String
  client : Client
  message : Message
  trace : List Ev

/-- Embedding of `Client::send_command` (src/main.rs lines 154-189):
build the message with the current `next_id`, increment the counter
(u16, wrapping), serialize, write the CRLF-terminated line, flush, read
one line; on a `WouldBlock` read failure re-send the identical bytes and
read once more; any other failure is returned as is. -/
def send_command (c : Client) (method : String) (params : List Param)
    (o : SendOracle) : SendOut :=
  let message : Message := { id := c.next_id, method := method, params := params }
  let c' : Client := { c with next_id := (c.next_id + 1) % 65536 }
  match o.ser with
  | some e => ⟨.error (.ser e), c', message, []⟩
  | none =>
    let wire := serializeMessage message ++ "\r\n"
    match o.w1 with
    | some e => ⟨.error (.io e), c', message, [.wr wire]⟩
    | none =>
      match o.f1 with
      | some e => ⟨.error (.io e), c', message, [.wr wire]⟩
      | none =>
        match o.r1 with
        | .ok avail =>
          ⟨.ok (String.mk (trimEnd (readUntilLF avail.data))), c', message, [.wr wire, .rd]⟩
        | .error (e, pBytes) =>
          if e.kind = .wouldBlock then
            match o.w2 with
            | some e2 => ⟨.error (.io e2), c', message, [.wr wire, .rd, .wr wire]⟩
            | none =>
              match o.f2 with
              | some e2 => ⟨.error (.io e2), c', message, [.wr wire, .rd, .wr wire]⟩
              | none =>
                match o.r2 with
                | .error (e2, _) =>
                  ⟨.error (.io e2), c', message, [.wr wire, .rd, .wr wire, .rd]⟩
                | .ok avail =>
                  ⟨.ok (String.mk (trimEnd (pBytes.data ++ readUntilLF avail.data))), c',
                    message, [.wr wire, .rd, .wr wire, .rd]⟩
          else ⟨.error (.io e), c', message, [.wr wire, .rd]⟩

/-- The client state after a `send_command` call: `next_id` is bumped by
one (mod 2^16) on every path, error paths included, and nothing else of
the client changes. -/
theorem send_command_client (c : Client) (m : String) (p : List Param) (o : SendOracle) :
    (send_command c m p o).client = { c with next_id := (c.next_id + 1) % 65536 } := by
  rcases o with ⟨ser, w1, f1, r1, w2, f2, r2⟩
  rcases ser with _ | se <;>
    rcases w1 with _ | we1 <;>
    rcases f1 with _ | fe1 <;>
    rcases r1 with ⟨e3, pb⟩ | av <;>
    rcases w2 with _ | we2 <;>
    rcases f2 with _ | fe2 <;>
    rcases r2 with ⟨e4, pb2⟩ | av2 <;>
    simp [send_command] <;>
    split <;>
    rfl

/-- The request `Message` built by a `send_command` call carries the
client's current `next_id`. -/
theorem send_command_message (c : Client) (m : String) (p : List Param) (o : SendOracle) :
    (send_command c m p o).message = ⟨c.next_id, m, p⟩ := by
  rcases o with ⟨ser, w1, f1, r1, w2, f2, r2⟩
  rcases ser with _ | se <;>
    rcases w1 with _ | we1 <;>
    rcases f1 with _ | fe1 <;>
    rcases r1 with ⟨e3, pb⟩ | av <;>
    rcases w2 with _ | we2 <;>
    rcases f2 with _ | fe2 <;>
    rcases r2 with ⟨e4, pb2⟩ | av2 <;>
    simp [send_command] <;>
    split <;>
    rfl

/-! ### Claim C9: the id counter is consumed on every call -/

/-- C9: every `send_command` call increments the session's `next_id` by
exactly one (as a u16), for every possible outcome of serialization,
writes, flushes and reads — so a failed send still consumes a request id
and the counter is not rolled back on error. -/
theorem claim_C9 (c : Client) (m : String) (p : List Param) (o : SendOracle) :
    (send_command c m p o).client.next_id = (c.next_id + 1) % 65536 := by
  rw [send_command_client]

/-! ### Claim C2: the one-shot resend-on-timeout policy -/

/-- C2: for every `send_command` call, at most two writes and at most two
reads ever happen; if the first read fails with `WouldBlock` (read
timeout) the identical request bytes are written a second time and
exactly one more read is attempted, whose failure is surfaced as is; if
the first read fails with any other kind the failure is surfaced
immediately after a single write; and a successful first read ends the
call after a single write. -/
theorem claim_C2 (c : Client) (m : String) (p : List Param) (o : SendOracle) :
    countWr (send_command c m p o).trace ≤ 2
    ∧ countRd (send_command c m p o).trace ≤ 2
    ∧ (∀ e pb, o.ser = none → o.w1 = none → o.f1 = none →
        o.r1 = .error (e, pb) → e.kind = .wouldBlock → o.w2 = none → o.f2 = none →
        ((send_command c m p o).trace =
            [.wr (serializeMessage ⟨c.next_id, m, p⟩ ++ "\r\n"), .rd,
             .wr (serializeMessage ⟨c.next_id, m, p⟩ ++ "\r\n"), .rd]
          ∧ ∀ e2 pb2, o.r2 = .error (e2, pb2) →
              (send_command c m p o).res = .error (.io e2)))
    ∧ (∀ e pb, o.ser = none → o.w1 = none → o.f1 = none →
        o.r1 = .error (e, pb) → ¬ e.kind = .wouldBlock →
        (send_command c m p o).res = .error (.io e)
          ∧ (send_command c m p o).trace =
              [.wr (serializeMessage ⟨c.next_id, m, p⟩ ++ "\r\n"), .rd])
    ∧ (∀ av, o.ser = none → o.w1 = none → o.f1 = none → o.r1 = .ok av →
        (send_command c m p o).trace =
          [.wr (serializeMessage ⟨c.next_id, m, p⟩ ++ "\r\n"), .rd]) := by
  refine ⟨?_, ?_, ?_, ?_, ?_⟩
  · rcases o with ⟨ser, w1, f1, r1, w2, f2, r2⟩
    rcases ser with _ | se <;>
      rcases w1 with _ | we1 <;>
      rcases f1 with _ | fe1 <;>
      rcases r1 with ⟨e3, pb⟩ | av <;>
      rcases w2 with _ | we2 <;>
      rcases f2 with _ | fe2 <;>
      rcases r2 with ⟨e4, pb2⟩ | av2 <;>
      simp [send_command, countWr, countRd] <;>
      split <;>
      simp [countWr, countRd]
  · rcases o with ⟨ser, w1, f1, r1, w2, f2, r2⟩
    rcases ser with _ | se <;>
      rcases w1 with _ | we1 <;>
      rcases f1 with _ | fe1 <;>
      rcases r1 with ⟨e3, pb⟩ | av <;>
      rcases w2 with _ | we2 <;>
      rcases f2 with _ | fe2 <;>
      rcases r2 with ⟨e4, pb2⟩ | av2 <;>
      simp [send_command, countWr, countRd] <;>
      split <;>
      simp [countWr, countRd]
  · rcases o with ⟨ser, w1, f1, r1, w2, f2, r2⟩
    intro e pb hser hw1 hf1 hr1 hk hw2 hf2
    subst hser hw1 hf1 hr1 hw2 hf2
    refine ⟨by rcases r2 with ⟨e4, pb4⟩ | av4 <;> simp [send_command, hk], ?_⟩
    intro e2 pb2 hr2
    subst hr2
    simp [send_command, hk]
  · rcases o with ⟨ser, w1, f1, r1, w2, f2, r2⟩
    intro e pb hser hw1 hf1 hr1 hk
    subst hser hw1 hf1 hr1
    constructor <;> simp [send_command, hk]
  · rcases o with ⟨ser, w1, f1, r1, w2, f2, r2⟩
    intro av hser hw1 hf1 hr1
    subst hser hw1 hf1 hr1
    simp [send_command]

/-- Witness for C2: a concrete first-read timeout followed by a failing
second read surfaces the second error after exactly two identical
writes; a concrete non-timeout first-read failure is surfaced after one
write. -/
theorem claim_C2_witness :
    (send_command ⟨0, 1, 200, 200⟩ "set_bright" [.uint8 50]
        ⟨none, none, none, .error (⟨.wouldBlock⟩, ""), none, none,
          .error (⟨.timedOut⟩, "")⟩).res = .error (.io ⟨.timedOut⟩)
    ∧ countWr (send_command ⟨0, 1, 200, 200⟩ "set_bright" [.uint8 50]
        ⟨none, none, none, .error (⟨.wouldBlock⟩, ""), none, none,
          .error (⟨.timedOut⟩, "")⟩).trace = 2
    ∧ (send_command ⟨0, 1, 200, 200⟩ "set_bright" [.uint8 50]
        ⟨none, none, none, .error (⟨.other⟩, ""), none, none,
          .ok "ok\n"⟩).res = .error (.io ⟨.other⟩)
    ∧ countWr (send_command ⟨0, 1, 200, 200⟩ "set_bright" [.uint8 50]
        ⟨none, none, none, .error (⟨.other⟩, ""), none, none,
          .ok "ok\n"⟩).trace = 1 := by
  have h1 := (claim_C2 ⟨0, 1, 200, 200⟩ "set_bright" [.uint8 50]
    ⟨none, none, none, .error (⟨.wouldBlock⟩, ""), none, none,
      .error (⟨.timedOut⟩, "")⟩).2.2.1 ⟨.wouldBlock⟩ "" rfl rfl rfl rfl rfl rfl rfl
  have h2 := (claim_C2 ⟨0, 1, 200, 200⟩ "set_bright" [.uint8 50]
    ⟨none, none, none, .error (⟨.other⟩, ""), none, none,
      .ok "ok\n"⟩).2.2.2.1 ⟨.other⟩ "" rfl rfl rfl rfl (by decide)
  refine ⟨h1.2 ⟨.timedOut⟩ "" rfl, ?_, h2.1, ?_⟩
  · rw [h1.1]; rfl
  · rw [h2.2]; rfl

/-! ### Claim C8: framing of requests and responses -/

theorem digitChar_gt31 {m : Nat} (h : m < 16) : 31 < (Nat.digitChar m).toNat := by
  interval_cases m <;> decide

/-- JSON escaping emits no control characters (in particular no raw LF or
CR), whatever the input character. -/
theorem escapeJsonChar_gt31 (c : Char) : ∀ x ∈ escapeJsonChar c, 31 < x.toNat := by
  unfold escapeJsonChar
  split_ifs with h1 h2 h3 h4 h5 h6 h7 h8 <;> intro x hx <;> fin_cases hx <;>
    first
      | decide
      | exact digitChar_gt31 (by omega)
      | omega

/-- "Contains no control character": all characters are above U+001F, so
in particular the string is free of LF and CR. -/
def noCtl (s : String) : Prop := ∀ x ∈ s.data, 31 < x.toNat

theorem noCtl_append {a b : String} (ha : noCtl a) (hb : noCtl b) : noCtl (a ++ b) := by
  intro x hx
  rw [string_data_append] at hx
  rcases List.mem_append.mp hx with h | h
  exacts [ha x h, hb x h]

theorem repChars_gt31 (n : Nat) : ∀ x ∈ repChars n, 31 < x.toNat := by
  induction n using Nat.strong_induction_on with
  | _ n ih =>
    by_cases h : n < 10
    · rw [repChars_lt n h]
      intro x hx
      simp at hx
      subst hx
      exact digitChar_gt31 (by omega)
    · rw [repChars_ge n h]
      intro x hx
      rcases List.mem_append.mp hx with h1 | h2
      · exact ih (n / 10) (Nat.div_lt_self (by omega) (by omega)) x h1
      · simp at h2
        subst h2
        exact digitChar_gt31 (by omega)

theorem noCtl_repr (n : Nat) : noCtl (Nat.repr n) := by
  intro x hx
  rw [repr_eq_repChars] at hx
  exact repChars_gt31 n x hx

theorem noCtl_jsonString (s : String) : noCtl (jsonString s) := by
  intro x hx
  rcases List.mem_cons.mp hx with rfl | hx2
  · decide
  · rcases List.mem_append.mp hx2 with h | h
    · obtain ⟨l, hl, hxl⟩ := List.mem_flatten.mp h
      obtain ⟨ch, _, rfl⟩ := List.mem_map.mp hl
      exact escapeJsonChar_gt31 ch x hxl
    · simp at h
      subst h
      decide

theorem noCtl_joinComma (L : List String) (h : ∀ s ∈ L, noCtl s) : noCtl (joinComma L) := by
  induction L with
  | nil => intro x hx; exact absurd hx (List.not_mem_nil x)
  | cons s rest ih =>
    cases rest with
    | nil => exact h s (by simp)
    | cons t ts =>
      rw [show joinComma (s :: t :: ts) = s ++ "," ++ joinComma (t :: ts) from rfl]
      refine noCtl_append (noCtl_append (h s (by simp)) ?_) ?_
      · intro x hx; simp at hx; subst hx; decide
      · exact ih (fun u hu => h u (by simp [hu]))

theorem noCtl_serializeParam (p : Param) : noCtl (serializeParam p) := by
  cases p with
  | uint8 n => exact noCtl_repr n
  | uint16 n => exact noCtl_repr n
  | str s => exact noCtl_jsonString s

/-- The serialized request is a single line: no control character (hence
no LF, no CR) ever appears in it. -/
theorem noCtl_serializeMessage (m : Message) : noCtl (serializeMessage m) := by
  refine noCtl_append (noCtl_append (noCtl_append (noCtl_append
    (noCtl_append (noCtl_append ?_ ?_) ?_) ?_) ?_) ?_) ?_
  · intro x hx; revert hx; revert x; decide
  · exact noCtl_repr _
  · intro x hx; revert hx; revert x; decide
  · exact noCtl_jsonString _
  · intro x hx; revert hx; revert x; decide
  · refine noCtl_joinComma _ ?_
    intro s hs
    obtain ⟨p, _, rfl⟩ := List.mem_map.mp hs
    exact noCtl_serializeParam p
  · intro x hx; revert hx; revert x; decide

theorem readUntilLF_line (pre post : List Char) (h : '\n' ∉ pre) :
    readUntilLF (pre ++ '\n' :: post) = pre ++ ['\n'] := by
  induction pre with
  | nil => simp [readUntilLF]
  | cons c cs ih =>
    have hc : ¬ c = '\n' := fun he => h (by simp [he])
    have hcs : '\n' ∉ cs := fun hm => h (by simp [hm])
    simp [readUntilLF, hc, ih hcs]

theorem trimEnd_append_newline (l : List Char) : trimEnd (l ++ ['\n']) = trimEnd l := by
  have h : ('\n').isWhitespace = true := rfl
  simp [trimEnd, List.reverse_append, List.dropWhile_cons, h]

/-- C8: every write that `send_command` performs is the serialized
single-line JSON request terminated by CRLF; the serialized object never
contains a raw LF or CR (strings are escaped); parameters serialize as
bare JSON values with no type tag (concrete example); the response read
consumes exactly one line up to and including the first LF; and the
returned response is that line with trailing whitespace trimmed. -/
theorem claim_C8 :
    (∀ (c : Client) (m : String) (p : List Param) (o : SendOracle) (s : String),
        Ev.wr s ∈ (send_command c m p o).trace →
        s = serializeMessage ⟨c.next_id, m, p⟩ ++ "\r\n")
    ∧ (∀ msg : Message,
        '\n' ∉ (serializeMessage msg).data ∧ '\r' ∉ (serializeMessage msg).data)
    ∧ serializeMessage ⟨1, "set_power", [.str "on", .str "smooth", .uint16 500, .uint8 5]⟩
        = "\x7b\"id\":1,\"method\":\"set_power\",\"params\":[\"on\",\"smooth\",500,5]\x7d"
    ∧ (∀ (pre post : List Char), '\n' ∉ pre →
        readUntilLF (pre ++ '\n' :: post) = pre ++ ['\n'])
    ∧ (∀ (c : Client) (m : String) (p : List Param) (o : SendOracle) (pre post : List Char),
        o.ser = none → o.w1 = none → o.f1 = none →
        o.r1 = .ok (String.mk (pre ++ '\n' :: post)) → '\n' ∉ pre →
        (send_command c m p o).res = .ok (String.mk (trimEnd pre))) := by
  refine ⟨?_, ?_, by decide, readUntilLF_line, ?_⟩
  · intro c m p o s hmem
    rcases o with ⟨ser, w1, f1, r1, w2, f2, r2⟩
    rcases ser with _ | se <;>
      rcases w1 with _ | we1 <;>
      rcases f1 with _ | fe1 <;>
      rcases w2 with _ | we2 <;>
      rcases f2 with _ | fe2 <;>
      rcases r2 with ⟨e4, pb2⟩ | av2 <;>
      rcases r1 with ⟨⟨k3⟩, pb⟩ | av <;>
      (try cases k3) <;>
      simp [send_command] at hmem ⊢ <;>
      tauto
  · intro msg
    have h := noCtl_serializeMessage msg
    constructor <;> intro hmem
    · exact absurd (h _ hmem) (by decide)
    · exact absurd (h _ hmem) (by decide)
  · intro c m p o pre post hser hw1 hf1 hr1 hpre
    rcases o with ⟨ser, w1, f1, r1, w2, f2, r2⟩
    simp only at hser hw1 hf1 hr1
    subst hser hw1 hf1 hr1
    simp only [send_command]
    rw [readUntilLF_line pre post hpre, trimEnd_append_newline]

/-- Witness for C8: a concrete response line `"locked \r\n"` is read up
to the LF and returned with trailing whitespace trimmed, and the write
of a concrete call is the CRLF-terminated serialized request. -/
theorem claim_C8_witness :
    (send_command ⟨0, 1, 200, 200⟩ "get_prop" [.str "power"]
        ⟨none, none, none, .ok "locked \r\n", none, none, .ok ""⟩).res = .ok "locked"
    ∧ readUntilLF ("abc".data ++ '\n' :: "xyz".data) = "abc".data ++ ['\n']
    ∧ serializeMessage ⟨1, "get_prop", [.str "power"]⟩ ++ "\r\n"
        = serializeMessage ⟨1, "get_prop", [.str "power"]⟩ ++ "\r\n" := by
  refine ⟨?_, claim_C8.2.2.2.1 "abc".data "xyz".data (by decide), ?_⟩
  · have h := claim_C8.2.2.2.2 ⟨0, 1, 200, 200⟩ "get_prop" [.str "power"]
      ⟨none, none, none, .ok "locked \r\n", none, none, .ok ""⟩
      "locked \r".data "".data rfl rfl rfl rfl (by decide)
    rw [h]
    rfl
  · exact claim_C8.1 ⟨0, 1, 200, 200⟩ "get_prop" [.str "power"]
      ⟨none, none, none, .ok "locked \r\n", none, none, .ok ""⟩
      (serializeMessage ⟨1, "get_prop", [.str "power"]⟩ ++ "\r\n")
      (by simp [send_command])

/-! ### Session transport: `connect_with_retries` and `Client::connect` -/

/-- Outcomes of the two I/O operations of one dial attempt:
`(host, port).to_socket_addrs()` (a list of resolved addresses, modelled
as `Nat`s) and `TcpStream::connect_timeout` (a stream handle, modelled
as a `Nat`). -/
structure AttemptOracle where
  resolve : Except IOError (List Nat)
  connect : Except IOError Nat
deriving DecidableEq, Repr

/-- Events of the dial loop: one resolution call, or one connect attempt
carrying the per-attempt timeout (in milliseconds) it was given. -/
inductive CEvent
  | resolve
  | attempt (timeout : Nat)
deriving DecidableEq, Repr

/-- Result of `connect_with_retries`: an open stream, an I/O error, the
panic of `.next().expect("unable to resolve hostname")`, or the
`unreachable!()` after the loop. -/
inductive ConnectOutcome
  | ok (stream : Nat)
  | err (e : IOError)
  | panicked
  | unreachableHit
deriving DecidableEq, Repr

def countAtt : List CEvent → Nat
  | [] => 0
  | .attempt _ :: tr => countAtt tr + 1
  | .resolve :: tr => countAtt tr

def countRes : List CEvent → Nat
  | [] => 0
  | .resolve :: tr => countRes tr + 1
  | .attempt _ :: tr => countRes tr

/-- The body of the `for attempt in 0..max_attempts` loop of
`connect_with_retries` (src/main.rs lines 119-133), with `remaining`
iterations left and `attempt` the current index: resolve the host
afresh (`?` surfaces a resolution error; an empty address list panics in
`.expect`), try to connect with the given timeout, return the stream on
success, return the error on the last attempt, otherwise continue. -/
def connectLoop (o : Nat → AttemptOracle) (maxAttempts timeout : Nat) :
    Nat → Nat → ConnectOutcome × List CEvent
  | 0, _ => (.unreachableHit, [])
  | remaining + 1, attempt =>
    match (o attempt).resolve with
    | .error e => (.err e, [.resolve])
    | .ok [] => (.panicked, [.resolve])
    | .ok (_ :: _) =>
      match (o attempt).connect with
      | .ok s => (.ok s, [.resolve, .attempt timeout])
      | .error e =>
        if attempt = maxAttempts - 1 then (.err e, [.resolve, .attempt timeout])
        else
          ((connectLoop o maxAttempts timeout remaining (attempt + 1)).1,
            .resolve :: .attempt timeout ::
              (connectLoop o maxAttempts timeout remaining (attempt + 1)).2)

/-- Embedding of `connect_with_retries(host, port, max_attempts, timeout)`. -/
def connect_with_retries (o : Nat → AttemptOracle) (maxAttempts timeout : Nat) :
    ConnectOutcome × List CEvent :=
  connectLoop o maxAttempts timeout maxAttempts 0

/-- Result of `Client::connect`. -/
inductive ConnResult
  | ok (c : Client)
  | err (e : IOError)
  | panicked
  | unreachableHit
deriving DecidableEq, Repr

/-- Embedding of `Client::connect` (src/main.rs lines 138-152): dial with
`150 / 3` attempts and a 300 ms per-attempt timeout; on success install
200 ms read and write timeouts on the socket (the `set_*_timeout`
`expect`s are modelled as succeeding) and start the session with
`next_id = 1`. -/
def Client.connect (o : Nat → AttemptOracle) : ConnResult × List CEvent :=
  let r := connect_with_retries o (150 / 3) 300
  (match r.1 with
    | .ok s => .ok ⟨s, 1, 200, 200⟩
    | .err e => .err e
    | .panicked => .panicked
    | .unreachableHit => .unreachableHit, r.2)

theorem connectLoop_counts (o : Nat → AttemptOracle) (M t : Nat) :
    ∀ rem att,
      countAtt (connectLoop o M t rem att).2 ≤ rem
      ∧ countRes (connectLoop o M t rem att).2 ≤ rem
      ∧ (∀ ti, CEvent.attempt ti ∈ (connectLoop o M t rem att).2 → ti = t) := by
  intro rem
  induction rem with
  | zero =>
    intro att
    refine ⟨?_, ?_, ?_⟩ <;> simp [connectLoop, countAtt, countRes]
  | succ r ih =>
    intro att
    rcases hres : (o att).resolve with e | ls
    · refine ⟨?_, ?_, ?_⟩ <;> simp [connectLoop, hres, countAtt, countRes]
    · cases ls with
      | nil => refine ⟨?_, ?_, ?_⟩ <;> simp [connectLoop, hres, countAtt, countRes]
      | cons a l =>
        rcases hcon : (o att).connect with e | s
        · by_cases hlast : att = M - 1
          · subst hlast
            refine ⟨?_, ?_, ?_⟩ <;>
              simp [connectLoop, hres, hcon, countAtt, countRes]
          · have h := ih (att + 1)
            refine ⟨?_, ?_, ?_⟩ <;>
              simp [connectLoop, hres, hcon, hlast, countAtt, countRes]
            · omega
            · omega
            · exact h.2.2
        · refine ⟨?_, ?_, ?_⟩ <;> simp [connectLoop, hres, hcon, countAtt, countRes]

theorem connectLoop_all_fail (o : Nat → AttemptOracle) (M t : Nat) (errs : Nat → IOError) :
    ∀ rem att, att + rem = M → 0 < rem →
      (∀ i, att ≤ i → i < M → ∃ a l, (o i).resolve = .ok (a :: l)) →
      (∀ i, att ≤ i → i < M → (o i).connect = .error (errs i)) →
      (connectLoop o M t rem att).1 = .err (errs (M - 1))
      ∧ countAtt (connectLoop o M t rem att).2 = rem
      ∧ countRes (connectLoop o M t rem att).2 = rem := by
  intro rem
  induction rem with
  | zero => intro att h0 h1; omega
  | succ r ih =>
    intro att hsum hpos hres hcon
    obtain ⟨a, l, hra⟩ := hres att (le_refl att) (by omega)
    have hca := hcon att (le_refl att) (by omega)
    by_cases hlast : att = M - 1
    · have hr0 : r = 0 := by omega
      subst hr0
      rw [hlast] at hca ⊢
      refine ⟨?_, ?_, ?_⟩ <;>
        simp [connectLoop, hlast ▸ hra, hca, hlast, countAtt, countRes]
    · have h1 := ih (att + 1) (by omega) (by omega)
        (fun i hi hiM => hres i (by omega) hiM)
        (fun i hi hiM => hcon i (by omega) hiM)
      refine ⟨?_, ?_, ?_⟩ <;>
        simp [connectLoop, hra, hca, hlast, countAtt, countRes, h1.1, h1.2.1, h1.2.2]

theorem connectLoop_success (o : Nat → AttemptOracle) (M t k s : Nat) :
    ∀ rem att, att + rem = M → att ≤ k → k < M →
      (∀ i, att ≤ i → i ≤ k → ∃ a l, (o i).resolve = .ok (a :: l)) →
      (∀ i, att ≤ i → i < k → ∃ e, (o i).connect = .error e) →
      (o k).connect = .ok s →
      (connectLoop o M t rem att).1 = .ok s
      ∧ countAtt (connectLoop o M t rem att).2 = k - att + 1
      ∧ countRes (connectLoop o M t rem att).2 = k - att + 1 := by
  intro rem
  induction rem with
  | zero => intro att h0 h1 h2; omega
  | succ r ih =>
    intro att hsum hak hkM hres hcon hk
    obtain ⟨a, l, hra⟩ := hres att (le_refl att) hak
    by_cases heq : att = k
    · subst heq
      refine ⟨?_, ?_, ?_⟩ <;> simp [connectLoop, hra, hk, countAtt, countRes]
    · have hlt : att < k := by omega
      obtain ⟨e, hce⟩ := hcon att (le_refl att) hlt
      have hlast : ¬ att = M - 1 := by omega
      have h1 := ih (att + 1) (by omega) (by omega) hkM
        (fun i hi hik => hres i (by omega) hik)
        (fun i hi hik => hcon i (by omega) hik)
        hk
      refine ⟨?_, ?_, ?_⟩ <;>
        simp [connectLoop, hra, hce, hlast, countAtt, countRes, h1.1, h1.2.1, h1.2.2] <;>
        omega

theorem connectLoop_resolve_err (o : Nat → AttemptOracle) (M t k : Nat) (e : IOError) :
    ∀ rem att, att + rem = M → att ≤ k → k < M →
      (∀ i, att ≤ i → i < k → ∃ a l, (o i).resolve = .ok (a :: l)) →
      (∀ i, att ≤ i → i < k → ∃ e2, (o i).connect = .error e2) →
      (o k).resolve = .error e →
      (connectLoop o M t rem att).1 = .err e
      ∧ countAtt (connectLoop o M t rem att).2 = k - att
      ∧ countRes (connectLoop o M t rem att).2 = k - att + 1 := by
  intro rem
  induction rem with
  | zero => intro att h0 h1 h2; omega
  | succ r ih =>
    intro att hsum hak hkM hres hcon hk
    by_cases heq : att = k
    · subst heq
      refine ⟨?_, ?_, ?_⟩ <;> simp [connectLoop, hk, countAtt, countRes]
    · have hlt : att < k := by omega
      obtain ⟨a, l, hra⟩ := hres att (le_refl att) hlt
      obtain ⟨e2, hce⟩ := hcon att (le_refl att) hlt
      have hlast : ¬ att = M - 1 := by omega
      have h1 := ih (att + 1) (by omega) (by omega) hkM
        (fun i hi hik => hres i (by omega) hik)
        (fun i hi hik => hcon i (by omega) hik)
        hk
      refine ⟨?_, ?_, ?_⟩ <;>
        simp [connectLoop, hra, hce, hlast, countAtt, countRes, h1.1, h1.2.1, h1.2.2] <;>
        omega

theorem connectLoop_resolve_empty (o : Nat → AttemptOracle) (M t k : Nat) :
    ∀ rem att, att + rem = M → att ≤ k → k < M →
      (∀ i, att ≤ i → i < k → ∃ a l, (o i).resolve = .ok (a :: l)) →
      (∀ i, att ≤ i → i < k → ∃ e2, (o i).connect = .error e2) →
      (o k).resolve = .ok [] →
      (connectLoop o M t rem att).1 = .panicked := by
  intro rem
  induction rem with
  | zero => intro att h0 h1 h2; omega
  | succ r ih =>
    intro att hsum hak hkM hres hcon hk
    by_cases heq : att = k
    · subst heq
      simp [connectLoop, hk]
    · have hlt : att < k := by omega
      obtain ⟨a, l, hra⟩ := hres att (le_refl att) hlt
      obtain ⟨e2, hce⟩ := hcon att (le_refl att) hlt
      have hlast : ¬ att = M - 1 := by omega
      have h1 := ih (att + 1) (by omega) (by omega) hkM
        (fun i hi hik => hres i (by omega) hik)
        (fun i hi hik => hcon i (by omega) hik)
        hk
      simp [connectLoop, hra, hce, hlast, h1]

theorem connectLoop_ne_unreachable (o : Nat → AttemptOracle) (M t : Nat) :
    ∀ rem att, att + rem = M → 0 < rem →
      (connectLoop o M t rem att).1 ≠ .unreachableHit := by
  intro rem
  induction rem with
  | zero => intro att h0 h1; omega
  | succ r ih =>
    intro att hsum hpos
    rcases hres : (o att).resolve with e | ls
    · simp [connectLoop, hres]
    · cases ls with
      | nil => simp [connectLoop, hres]
      | cons a l =>
        rcases hcon : (o att).connect with e | s
        · by_cases hlast : att = M - 1
          · subst hlast
            simp [connectLoop, hres, hcon]
          · have h := ih (att + 1) (by omega) (by omega)
            simp [connectLoop, hres, hcon, hlast]
            exact h
        · simp [connectLoop, hres, hcon]

theorem client_connect_trace (o : Nat → AttemptOracle) :
    (Client.connect o).2 = (connect_with_retries o (150 / 3) 300).2 := rfl

theorem client_connect_err (o : Nat → AttemptOracle) (e : IOError)
    (h : (connect_with_retries o (150 / 3) 300).1 = .err e) :
    (Client.connect o).1 = .err e := by
  simp [Client.connect, h]

theorem client_connect_ok (o : Nat → AttemptOracle) (s : Nat)
    (h : (connect_with_retries o (150 / 3) 300).1 = .ok s) :
    (Client.connect o).1 = .ok ⟨s, 1, 200, 200⟩ := by
  simp [Client.connect, h]

/-! ### Claim C3: bounded dial retries, last-error surfacing, timeouts -/

/-- C3: `Client::connect` makes at most `150 / 3 = 50` dial attempts,
each with a 300 ms connect timeout; when every attempt fails it performs
all 50 attempts (retrying after every failure but the last) and returns
the underlying error of the last attempt; and when attempt `k < 50` is
the first to succeed, it returns an open client whose socket has both
the read timeout and the write timeout set to 200 ms, after exactly
`k + 1` attempts. -/
theorem claim_C3 :
    (∀ o : Nat → AttemptOracle,
        countAtt (Client.connect o).2 ≤ 150 / 3
        ∧ ∀ ti, CEvent.attempt ti ∈ (Client.connect o).2 → ti = 300)
    ∧ (∀ (o : Nat → AttemptOracle) (errs : Nat → IOError),
        (∀ i, i < 150 / 3 → ∃ a l, (o i).resolve = .ok (a :: l)) →
        (∀ i, i < 150 / 3 → (o i).connect = .error (errs i)) →
        (Client.connect o).1 = .err (errs 49)
          ∧ countAtt (Client.connect o).2 = 50)
    ∧ (∀ (o : Nat → AttemptOracle) (k s : Nat),
        k < 150 / 3 →
        (∀ i, i ≤ k → ∃ a l, (o i).resolve = .ok (a :: l)) →
        (∀ i, i < k → ∃ e, (o i).connect = .error e) →
        (o k).connect = .ok s →
        (Client.connect o).1 = .ok ⟨s, 1, 200, 200⟩
          ∧ countAtt (Client.connect o).2 = k + 1) := by
  refine ⟨?_, ?_, ?_⟩
  · intro o
    exact ⟨(connectLoop_counts o (150 / 3) 300 (150 / 3) 0).1,
      (connectLoop_counts o (150 / 3) 300 (150 / 3) 0).2.2⟩
  · intro o errs hres hcon
    have h := connectLoop_all_fail o (150 / 3) 300 errs (150 / 3) 0
      (by norm_num) (by norm_num)
      (fun i _ hi => hres i hi) (fun i _ hi => hcon i hi)
    have h1 := h.1
    rw [show (150 / 3 - 1 : Nat) = 49 from by norm_num] at h1
    refine ⟨client_connect_err o _ h1, ?_⟩
    have h2 := h.2.1
    rw [show (150 / 3 : Nat) = 50 from by norm_num] at h2
    exact h2
  · intro o k s hk hres hcon hsucc
    have h := connectLoop_success o (150 / 3) 300 k s (150 / 3) 0
      (by norm_num) (by omega) hk
      (fun i _ hik => hres i hik) (fun i _ hik => hcon i hik) hsucc
    refine ⟨client_connect_ok o s h.1, ?_⟩
    have h2 := h.2.1
    rw [Nat.sub_zero] at h2
    exact h2

/-- Witness for C3: all 50 attempts failing yields the last error after
50 attempts; an immediately succeeding dial yields a client with 200 ms
read/write timeouts after one attempt. -/
theorem claim_C3_witness :
    (Client.connect (fun _ => ⟨.ok [0], .error ⟨.other⟩⟩)).1 = .err ⟨.other⟩
    ∧ countAtt (Client.connect (fun _ => ⟨.ok [0], .error ⟨.other⟩⟩)).2 = 50
    ∧ (Client.connect (fun _ => ⟨.ok [0], .ok 7⟩)).1 = .ok ⟨7, 1, 200, 200⟩
    ∧ countAtt (Client.connect (fun _ => ⟨.ok [0], .ok 7⟩)).2 = 1 := by
  have h1 := claim_C3.2.1 (fun _ => ⟨.ok [0], .error ⟨.other⟩⟩) (fun _ => ⟨.other⟩)
    (fun i _ => ⟨0, [], rfl⟩) (fun i _ => rfl)
  have h2 := claim_C3.2.2 (fun _ => ⟨.ok [0], .ok 7⟩) 0 7 (by norm_num)
    (fun i _ => ⟨0, [], rfl⟩) (fun i hi => absurd hi (by omega)) rfl
  exact ⟨h1.1, h1.2, h2.1, h2.2⟩

/-! ### Claim C10: per-attempt resolution, resolution failures, the
unreachable branch -/

/-- C10: `connect_with_retries` resolves the host name afresh on every
attempt (one resolution per attempt: with all connects failing, `M`
attempts perform `M` resolutions); a resolution error at attempt `k` is
surfaced immediately, abandoning the remaining budget (only `k` connect
attempts ever happen, and the `k+1`-th resolution is the last event); a
successful resolution with an empty address list panics in `.expect`
instead of returning an I/O error; and with at least one attempt allowed
the `unreachable!()` after the loop is never reached. -/
theorem claim_C10 :
    (∀ (o : Nat → AttemptOracle) (M t : Nat) (errs : Nat → IOError), 0 < M →
        (∀ i, i < M → ∃ a l, (o i).resolve = .ok (a :: l)) →
        (∀ i, i < M → (o i).connect = .error (errs i)) →
        countRes (connect_with_retries o M t).2 = M
          ∧ countAtt (connect_with_retries o M t).2 = M)
    ∧ (∀ (o : Nat → AttemptOracle) (M t k : Nat) (e : IOError), k < M →
        (∀ i, i < k → ∃ a l, (o i).resolve = .ok (a :: l)) →
        (∀ i, i < k → ∃ e2, (o i).connect = .error e2) →
        (o k).resolve = .error e →
        (connect_with_retries o M t).1 = .err e
          ∧ countAtt (connect_with_retries o M t).2 = k
          ∧ countRes (connect_with_retries o M t).2 = k + 1)
    ∧ (∀ (o : Nat → AttemptOracle) (M t k : Nat), k < M →
        (∀ i, i < k → ∃ a l, (o i).resolve = .ok (a :: l)) →
        (∀ i, i < k → ∃ e2, (o i).connect = .error e2) →
        (o k).resolve = .ok [] →
        (connect_with_retries o M t).1 = .panicked)
    ∧ (∀ (o : Nat → AttemptOracle) (M t : Nat), 0 < M →
        (connect_with_retries o M t).1 ≠ .unreachableHit) := by
  refine ⟨?_, ?_, ?_, ?_⟩
  · intro o M t errs hM hres hcon
    have h := connectLoop_all_fail o M t errs M 0 (by omega) hM
      (fun i _ hi => hres i hi) (fun i _ hi => hcon i hi)
    exact ⟨h.2.2, h.2.1⟩
  · intro o M t k e hk hres hcon hke
    have h := connectLoop_resolve_err o M t k e M 0 (by omega) (by omega) hk
      (fun i _ hik => hres i hik) (fun i _ hik => hcon i hik) hke
    refine ⟨h.1, ?_, ?_⟩
    · have h2 := h.2.1; rw [Nat.sub_zero] at h2; exact h2
    · have h2 := h.2.2; rw [Nat.sub_zero] at h2; exact h2
  · intro o M t k hk hres hcon hke
    exact connectLoop_resolve_empty o M t k M 0 (by omega) (by omega) hk
      (fun i _ hik => hres i hik) (fun i _ hik => hcon i hik) hke
  · intro o M t hM
    exact connectLoop_ne_unreachable o M t M 0 (by omega) hM

/-- Witness for C10 with a three-attempt budget: all-fail gives three
resolutions; a resolution error on the second attempt is surfaced after
one connect attempt and two resolutions; an empty address list panics;
the unreachable branch is not taken. -/
theorem claim_C10_witness :
    countRes (connect_with_retries (fun _ => ⟨.ok [0], .error ⟨.other⟩⟩) 3 300).2 = 3
    ∧ (connect_with_retries
        (fun i => if i = 0 then ⟨.ok [0], .error ⟨.other⟩⟩ else ⟨.error ⟨.timedOut⟩, .ok 7⟩)
        3 300).1 = .err ⟨.timedOut⟩
    ∧ countAtt (connect_with_retries
        (fun i => if i = 0 then ⟨.ok [0], .error ⟨.other⟩⟩ else ⟨.error ⟨.timedOut⟩, .ok 7⟩)
        3 300).2 = 1
    ∧ (connect_with_retries (fun _ => ⟨.ok [], .ok 0⟩) 3 300).1 = .panicked
    ∧ (connect_with_retries (fun _ => ⟨.ok [0], .error ⟨.other⟩⟩) 3 300).1
        ≠ .unreachableHit := by
  have h1 := claim_C10.1 (fun _ => ⟨.ok [0], .error ⟨.other⟩⟩) 3 300 (fun _ => ⟨.other⟩)
    (by omega) (fun i _ => ⟨0, [], rfl⟩) (fun i _ => rfl)
  have h2 := claim_C10.2.1
    (fun i => if i = 0 then ⟨.ok [0], .error ⟨.other⟩⟩ else ⟨.error ⟨.timedOut⟩, .ok 7⟩)
    3 300 1 ⟨.timedOut⟩ (by omega)
    (fun i hi => by
      have : i = 0 := by omega
      subst this
      exact ⟨0, [], rfl⟩)
    (fun i hi => by
      have : i = 0 := by omega
      subst this
      exact ⟨⟨.other⟩, rfl⟩)
    rfl
  have h3 := claim_C10.2.2.1 (fun _ => ⟨.ok [], .ok 0⟩) 3 300 0 (by omega)
    (fun i hi => absurd hi (by omega)) (fun i hi => absurd hi (by omega)) rfl
  have h4 := claim_C10.2.2.2 (fun _ => ⟨.ok [0], .error ⟨.other⟩⟩) 3 300 (by omega)
  exact ⟨h1.1, h2.1, h2.2.1, h3, h4⟩

/-! ### The command orchestrator (`process`) -/

/-- The error type of `process` (`Box<dyn Error>`), by provenance, plus
the two panic/unreachable outcomes of the dial phase. -/
inductive ProcError
  | io (e : IOError)
  | resolvePanic
  | loopUnreachable
  | mainParse (e : MainParseError)
  | hsvParse (e : HsvParseError)
  | send (e : SendError)
deriving DecidableEq, Repr

/-- State threaded through the orchestrator: the client, the sequence of
`send_command` calls made so far (method and params), and the index of
the next send oracle. -/
structure SessionSt where
  client : Client
  sent : List (String × List Param)
  k : Nat

/-- One `client.send_command(method, params)?` call site: the call is
recorded, the client state advances, and an error aborts. -/
def sendStep (so : Nat → SendOracle) (st : SessionSt) (method : String)
    (params : List Param) : Except (ProcError × SessionSt) SessionSt :=
  let out := send_command st.client method params (so st.k)
  let st' : SessionSt := ⟨out.client, st.sent ++ [(method, params)], st.k + 1⟩
  match out.res with
  | .error e => .error (.send e, st')
  | .ok _ => .ok st'

/-- The main-light branch of `process` (src/main.rs lines 202-234). -/
def mainCommands (so : Nat → SendOracle) (st : SessionSt) (mode : Mode) (v : Nat) :
    Except (ProcError × SessionSt) SessionSt :=
  if v = 0 then
    sendStep so st "set_power" [.str "off", .str "smooth", .uint16 500]
  else
    match sendStep so st "set_power"
        [.str "on", .str "smooth", .uint16 500, .uint8 mode.code] with
    | .error e => .error e
    | .ok st1 => sendStep so st1 "set_bright" [.uint8 v, .str "smooth", .uint16 500]

/-- The ambient-light branch of `process` (src/main.rs lines 236-277). -/
def ambientCommands (so : Nat → SendOracle) (st : SessionSt) (h s v : Nat) :
    Except (ProcError × SessionSt) SessionSt :=
  if v = 0 then
    sendStep so st "bg_set_power" [.str "off", .str "smooth", .uint16 500]
  else
    match sendStep so st "bg_set_power" [.str "on", .str "smooth", .uint16 500] with
    | .error e => .error e
    | .ok st1 =>
      match sendStep so st1 "bg_set_hsv"
          [.uint16 h, .uint8 s, .str "smooth", .uint16 500] with
      | .error e => .error e
      | .ok st2 => sendStep so st2 "bg_set_bright" [.uint8 v, .str "smooth", .uint16 500]

def processMain (so : Nat → SendOracle) (st : SessionSt) :
    Option String → Except (ProcError × SessionSt) SessionSt
  | none => .ok st
  | some str =>
    match parse_main str with
    | .error e => .error (.mainParse e, st)
    | .ok (mode, v) => mainCommands so st mode v

def processAmbient (so : Nat → SendOracle) (st : SessionSt) :
    Option String → Except (ProcError × SessionSt) SessionSt
  | none => .ok st
  | some str =>
    match parse_hsv str with
    | .error e => .error (.hsvParse e, st)
    | .ok (h, s, v) => ambientCommands so st h s v

/-- Result of `process`: the outcome plus the sequence of commands the
session issued. -/
structure ProcOut where
  res : Except ProcError Unit
  sent : List (String × List Param)

/-- Embedding of `process` (src/main.rs lines 192-280): connect, sleep
5 ms (no observable effect in the model), then the main-light branch
followed by the ambient-light branch. -/
def process (mainD ambientD : Option String) (co : Nat → AttemptOracle)
    (so : Nat → SendOracle) : ProcOut :=
  match Client.connect co with
  | (.ok c, _) =>
    let st0 : SessionSt := ⟨c, [], 0⟩
    match processMain so st0 mainD with
    | .error (e, st) => ⟨.error e, st.sent⟩
    | .ok st1 =>
      match processAmbient so st1 ambientD with
      | .error (e, st) => ⟨.error e, st.sent⟩
      | .ok st2 => ⟨.ok (), st2.sent⟩
  | (.err e, _) => ⟨.error (.io e), []⟩
  | (.panicked, _) => ⟨.error .resolvePanic, []⟩
  | (.unreachableHit, _) => ⟨.error .loopUnreachable, []⟩

/-- A dial oracle whose first attempt resolves and connects. -/
def happyAttempt : Nat → AttemptOracle := fun _ => ⟨.ok [0], .ok 0⟩

/-- A send oracle whose every operation succeeds, each read returning the
line `"ok\n"`. -/
def happySend : Nat → SendOracle :=
  fun _ => ⟨none, none, none, .ok "ok\n", none, none, .ok "ok\n"⟩

/-! ### Claim C1: the command sequence for main="50", ambient="off" -/

/-- C1 counterexample: the claim (and §8 of the spec) says the first
command is `set_power(["on","smooth",500,1])`, but `"50"` parses to mode
Moonlight, whose device code is 5, so the sequence actually sent starts
with `set_power(["on","smooth",500,5])`. -/
theorem claim_C1_counterexample :
    (process (some "50") (some "off") happyAttempt happySend).sent
      ≠ [("set_power", [.str "on", .str "smooth", .uint16 500, .uint8 1]),
         ("set_bright", [.uint8 50, .str "smooth", .uint16 500]),
         ("bg_set_power", [.str "off", .str "smooth", .uint16 500])] := by
  decide

/-- C1 amended: with main="50" and ambient="off" (all I/O succeeding),
the command sequence sent is exactly `set_power(["on","smooth",500,5])`
(5 = Moonlight, since 50 ≤ 100 parses to Moonlight), then
`set_bright([50,"smooth",500])`, then `bg_set_power(["off","smooth",500])`,
in that order, and no `bg_set_hsv` or `bg_set_bright` is sent. -/
theorem claim_C1_amended :
    (process (some "50") (some "off") happyAttempt happySend).res = .ok ()
    ∧ (process (some "50") (some "off") happyAttempt happySend).sent
      = [("set_power", [.str "on", .str "smooth", .uint16 500, .uint8 5]),
         ("set_bright", [.uint8 50, .str "smooth", .uint16 500]),
         ("bg_set_power", [.str "off", .str "smooth", .uint16 500])]
    ∧ "bg_set_hsv" ∉ (process (some "50") (some "off") happyAttempt happySend).sent.map Prod.fst
    ∧ "bg_set_bright" ∉ (process (some "50") (some "off") happyAttempt happySend).sent.map Prod.fst := by
  refine ⟨by decide, by decide, by decide, by decide⟩

/-! ### Claim C4: request ids within one session -/

/-- The ids placed in the requests of `n` consecutive `send_command`
calls starting from client state `c`, with arbitrary per-call oracles,
methods and parameter lists. -/
def idsAfter (o : Nat → SendOracle) (ms : Nat → String) (ps : Nat → List Param)
    (c : Client) : Nat → List Nat
  | 0 => []
  | n + 1 =>
    (send_command c (ms 0) (ps 0) (o 0)).message.id ::
      idsAfter (fun i => o (i + 1)) (fun i => ms (i + 1)) (fun i => ps (i + 1))
        (send_command c (ms 0) (ps 0) (o 0)).client n

/-- Closed form for the id sequence: the `i`-th call (0-based) carries
`(c.next_id + i) mod 2^16`. -/
theorem idsAfter_eq :
    ∀ (n : Nat) (o : Nat → SendOracle) (ms : Nat → String) (ps : Nat → List Param)
      (c : Client), c.next_id < 65536 →
      idsAfter o ms ps c n = (List.range n).map (fun i => (c.next_id + i) % 65536) := by
  intro n
  induction n with
  | zero => intro o ms ps c h; rfl
  | succ n ih =>
    intro o ms ps c hlt
    rw [idsAfter]
    rw [send_command_message, send_command_client]
    rw [ih (fun i => o (i + 1)) (fun i => ms (i + 1)) (fun i => ps (i + 1))
      { c with next_id := (c.next_id + 1) % 65536 } (Nat.mod_lt _ (by omega))]
    rw [List.range_succ_eq_map, List.map_cons, List.map_map]
    congr 1
    · exact (Nat.mod_eq_of_lt hlt).symm
    · apply List.map_congr_left
      intro i _
      show ((c.next_id + 1) % 65536 + i) % 65536 = (c.next_id + Nat.succ i) % 65536
      rw [Nat.mod_add_mod]
      congr 1
      omega

/-- C4 amended: a session starts with `next_id = 1` (set by
`Client::connect`), and the ids of consecutive `send_command` calls are
exactly 1, 2, 3, ... — strictly increasing and never reused — as long as
at most 65535 requests are sent; the `u16` counter wraps on the 65536th
request (see the counterexample), so the unbounded form of the claim
fails. -/
theorem claim_C4_amended :
    (∀ (co : Nat → AttemptOracle) (c : Client) (tr : List CEvent),
        Client.connect co = (.ok c, tr) → c.next_id = 1)
    ∧ (∀ (o : Nat → SendOracle) (ms : Nat → String) (ps : Nat → List Param)
        (c : Client) (n : Nat), c.next_id = 1 → n ≤ 65535 →
        idsAfter o ms ps c n = (List.range n).map (fun i => i + 1)) := by
  constructor
  · intro co c tr h
    rcases hr : connect_with_retries co (150 / 3) 300 with ⟨res, tr2⟩
    cases res <;> simp [Client.connect, hr] at h
    rw [← h.1]
  · intro o ms ps c n h1 hn
    rw [idsAfter_eq n o ms ps c (by omega)]
    apply List.map_congr_left
    intro i hi
    rw [List.mem_range] at hi
    rw [h1]
    rw [Nat.mod_eq_of_lt (by omega)]
    omega

/-- C4 counterexample: after 65535 calls the `u16` counter has value
65535 + 1 ≡ 0, so the 65536th request carries id 0 — smaller than the
65535th request's id 65535.  The id sequence over 65536 calls is
therefore not strictly increasing, refuting the claim's "over any number
of send_command calls". -/
theorem claim_C4_counterexample :
    (idsAfter happySend (fun _ => "set_bright") (fun _ => [])
        ⟨0, 1, 200, 200⟩ 65536).get? 65534 = some 65535
    ∧ (idsAfter happySend (fun _ => "set_bright") (fun _ => [])
        ⟨0, 1, 200, 200⟩ 65536).get? 65535 = some 0
    ∧ ¬ List.Sorted (· < ·)
        (idsAfter happySend (fun _ => "set_bright") (fun _ => [])
          ⟨0, 1, 200, 200⟩ 65536) := by
  have h := idsAfter_eq 65536 happySend (fun _ => "set_bright") (fun _ => [])
    ⟨0, 1, 200, 200⟩ (by norm_num)
  refine ⟨?_, ?_, ?_⟩
  · rw [h, List.get?_map, List.get?_range (by norm_num)]
    norm_num
  · rw [h, List.get?_map, List.get?_range (by norm_num)]
    norm_num
  · intro hs
    rw [h] at hs
    have hp := List.pairwise_iff_get.mp hs
      ⟨65534, by simp⟩ ⟨65535, by simp⟩ (by norm_num [Fin.mk_lt_mk])
    simp [List.get_map, List.get_range] at hp

/-- Witness for the amended C4: a freshly connected client has
`next_id = 1`, and three consecutive sends carry ids 1, 2, 3. -/
theorem claim_C4_amended_witness :
    (Client.connect happyAttempt).1 = .ok ⟨0, 1, 200, 200⟩
    ∧ (⟨0, 1, 200, 200⟩ : Client).next_id = 1
    ∧ idsAfter happySend (fun _ => "set_bright") (fun _ => [])
        ⟨0, 1, 200, 200⟩ 3 = [1, 2, 3] := by
  have h0 := claim_C4_amended.1 happyAttempt ⟨0, 1, 200, 200⟩
    [CEvent.resolve, CEvent.attempt 300] (by decide)
  have h := claim_C4_amended.2 happySend (fun _ => "set_bright") (fun _ => [])
    ⟨0, 1, 200, 200⟩ 3 h0 (by norm_num)
  refine ⟨by decide, h0, ?_⟩
  rw [h]
  decide
